import Mathlib

/-!
Formal model of the XAU SiRiX cluster-hybrid trading bot.

The definitions below are shallow embeddings of the Python sources:
  * `src/core/cluster_engine.py`  — `ClusterEngine.add_events`
  * `src/core/risk.py`            — `check_daily_loss_limits`
  * `src/strategies/chandelier.py`— `decide_direction`, `entry_step`,
                                    the per-position body of `manage_trailing_stops`
  * `src/mt5/execution.py`        — `enforce_stop_level`, `round_price`
  * `src/sirix/api.py`            — `SeenOrdersCache`

Modelling conventions:
  * `datetime` values become `ℤ` (seconds); `timedelta(seconds=n)` becomes the
    integer `n`.
  * Python `float` prices and P&L values become `ℚ` with exact arithmetic;
    `round(x, digits)` becomes rounding to the nearest multiple of
    `10 ^ (-digits)` (`round_price`).
  * Dictionaries become functions into `Option`; sets of user ids become
    deduplicated lists.
  * MT5 / HTTP side effects (order_send, logging, candle fetches) are
    abstracted into explicit inputs: fetched indicator values arrive as
    function arguments, and a fallible fetch arrives as an `Except` value.
-/

namespace ClusterBot

/-- Trade side: the `"buy"` / `"sell"` strings of the Python source.
`src/core/cluster_engine.py` treats every non-`"buy"` side as sell, and the
feed layer (`_infer_side`) only ever produces these two values. -/
inductive Side
  | buy
  | sell
deriving DecidableEq, Repr

/-- Embedding of `_inverse_side` from `src/strategies/chandelier.py`. -/
def Side.inverse : Side → Side
  | .buy => .sell
  | .sell => .buy

/-- Embedding of `SirixPositionEvent` from `src/core/models.py`.
`time` is the UTC `OpenTime` in whole seconds. -/
structure SirixPositionEvent where
  order_id : String
  user_id : String
  side : Side
  lots : ℚ
  time : ℤ
deriving DecidableEq, Repr

/-- Constant `CLUSTER_REFRACTORY_SECONDS` from `config/config.py`. -/
def CLUSTER_REFRACTORY_SECONDS : ℤ := 1

/-- Constant `TRADE_COOLDOWN_SECONDS` from `config/config.py`. -/
def TRADE_COOLDOWN_SECONDS : ℤ := 120

/-- Mutable state of `ClusterEngine` from `src/core/cluster_engine.py`
(constructor arguments plus the three instance attributes). The deque of
events is a list whose head is the oldest entry. -/
structure ClusterEngine where
  window_seconds : ℤ
  k_unique : ℕ
  events : List SirixPositionEvent
  last_cluster_time : Option ℤ
  last_cluster_side : Option Side
deriving DecidableEq, Repr

/-- Step 2 of `ClusterEngine.add_events`: the `while` loop that pops events
from the left while `events[0].time < cutoff`. -/
def trimWindow (evs : List SirixPositionEvent) (cutoff : ℤ) : List SirixPositionEvent :=
  evs.dropWhile (fun e => decide (e.time < cutoff))

/-- Step 3 of `ClusterEngine.add_events`: `len(buy_users)`, the number of
distinct `user_id`s among events whose side equals `"buy"`. -/
def buy_unique (evs : List SirixPositionEvent) : ℕ :=
  ((evs.filter (fun e => e.side == Side.buy)).map (fun e => e.user_id)).dedup.length

/-- Step 3 of `ClusterEngine.add_events`: `len(sell_users)`, the number of
distinct `user_id`s among events on the `else` branch (side not `"buy"`). -/
def sell_unique (evs : List SirixPositionEvent) : ℕ :=
  ((evs.filter (fun e => !(e.side == Side.buy))).map (fun e => e.user_id)).dedup.length

/-- Step 4 of `ClusterEngine.add_events`: pick the cluster side
(`if len(buy_users) >= k` …, `elif len(sell_users) >= k` …). -/
def clusterSideOf (evs : List SirixPositionEvent) (k : ℕ) : Option Side :=
  if k ≤ buy_unique evs then some Side.buy
  else if k ≤ sell_unique evs then some Side.sell
  else none

/-- Step 5 of `ClusterEngine.add_events`: the refractory condition
`last_cluster_time is not None and last_cluster_side == cluster_side and
(latest_time - last_cluster_time) < timedelta(seconds=REFRACTORY)`. A `None`
stored side compares unequal to the detected side, as in Python. -/
def refractorySuppressed (eng : ClusterEngine) (latest_time : ℤ) (cs : Side) : Bool :=
  match eng.last_cluster_time, eng.last_cluster_side with
  | some t, some s => s == cs && decide (latest_time - t < CLUSTER_REFRACTORY_SECONDS)
  | _, _ => false

/-- Embedding of `ClusterEngine.add_events`: append the batch, return `None`
on an empty window (`getLast? = none` is exactly `if not self.events`,
otherwise `latest_time = self.events[-1].time`), trim by the latest-event
anchor, count unique traders, apply the refractory gate, and update the
refractory state on emission. Returns the new engine state plus the
optional detected side. -/
def ClusterEngine.add_events (eng : ClusterEngine) (new_events : List SirixPositionEvent) :
    ClusterEngine × Option Side :=
  let evs := eng.events ++ new_events
  match evs.getLast? with
  | none => ({ eng with events := evs }, none)
  | some lastEv =>
      let latest_time := lastEv.time
      let cutoff := latest_time - eng.window_seconds
      let evs2 := trimWindow evs cutoff
      if evs2 = [] then ({ eng with events := evs2 }, none)
      else
        match clusterSideOf evs2 eng.k_unique with
        | none => ({ eng with events := evs2 }, none)
        | some cs =>
            if refractorySuppressed eng latest_time cs then
              ({ eng with events := evs2 }, none)
            else
              ({ eng with
                  events := evs2,
                  last_cluster_time := some latest_time,
                  last_cluster_side := some cs }, some cs)

/-! Daily loss circuit breaker, from `src/core/risk.py`. -/

/-- Outcome of `check_daily_loss_limits`. The Python function returns a
formatted reason string (`"ENGINE_DAILY_LOSS_LIMIT: <name> pnl_today=…"` or
`"TOTAL_DAILY_LOSS_LIMIT: total_pnl_today=…"`); the embedding keeps the
branch tag and the interpolated values and abstracts the string formatting. -/
inductive RiskReason
  | noBreach
  | engineLimit (name : String) (pnl_today : ℚ)
  | totalLimit (total_pnl_today : ℚ)
deriving DecidableEq, Repr

/-- Loop body of `check_daily_loss_limits`: iterate over the strategies
(each given as its name together with `realized_pnl_today + floating_pnl`),
accumulate `total_pnl`, return on the first per-engine breach, and check the
total after the loop. -/
def check_daily_loss_aux (per_limit total_limit : ℚ) (total_pnl : ℚ) :
    List (String × ℚ) → Bool × RiskReason
  | [] =>
      if total_pnl ≤ -total_limit then (true, .totalLimit total_pnl)
      else (false, .noBreach)
  | (name, pnl) :: rest =>
      if pnl ≤ -per_limit then (true, .engineLimit name pnl)
      else check_daily_loss_aux per_limit total_limit (total_pnl + pnl) rest

/-- Embedding of `check_daily_loss_limits` from `src/core/risk.py`.
`use_limits`, `per_limit` and `total_limit` stand for the module constants
`USE_DAILY_LOSS_LIMITS`, `DAILY_LOSS_LIMIT_PER_ENGINE` and
`DAILY_LOSS_LIMIT_TOTAL`; `engines` carries each strategy's name and its
realized-since-midnight plus floating P&L. -/
def check_daily_loss_limits (use_limits : Bool) (per_limit total_limit : ℚ)
    (engines : List (String × ℚ)) : Bool × RiskReason :=
  if use_limits = false then (false, .noBreach)
  else check_daily_loss_aux per_limit total_limit 0 engines

/-! Hybrid direction decision, from `src/strategies/chandelier.py`. -/

/-- Value of `cfg.direction_mode` (`"inverse" | "momentum" | "hybrid"`);
`decide_direction` treats anything that is neither `"inverse"` nor
`"momentum"` as hybrid. -/
inductive DirectionMode
  | inverse
  | momentum
  | hybrid
deriving DecidableEq, Repr

/-- Decision mode returned by `decide_direction`
(`"inverse" | "momentum"`). -/
inductive TradeMode
  | inverse
  | momentum
deriving DecidableEq, Repr

/-- Subset of `StrategyConfig` (`src/core/models.py`) consumed by
`decide_direction`. -/
structure HybridConfig where
  direction_mode : DirectionMode
  rsi_overbought : ℚ
  rsi_oversold : ℚ
  vwap_band_pct : ℚ
  hybrid_require_both : Bool
deriving DecidableEq, Repr

/-- Result of the indicator block in `decide_direction`: the RSI, the VWAP
and `float(df["close"].iloc[-1])`. -/
structure IndicatorData where
  rsi : ℚ
  vwap : ℚ
  current_px : ℚ
deriving DecidableEq, Repr

/-- Embedding of `decide_direction` from `src/strategies/chandelier.py`.
The indicator fetch (`fetch_m1_rates` / `compute_rsi` / `compute_vwap`
inside the `try` block) is abstracted into the `indicators` argument: `ok`
carries the computed triple, `error` stands for any raised exception, which
the source catches and answers with the inverse side. The function is total:
no branch propagates a failure to the caller. -/
def decide_direction (cluster_side : Side) (cfg : HybridConfig)
    (indicators : Except Unit IndicatorData) : Side × TradeMode :=
  match cfg.direction_mode with
  | .inverse => (cluster_side.inverse, .inverse)
  | .momentum => (cluster_side, .momentum)
  | .hybrid =>
      match indicators with
      | .error _ => (cluster_side.inverse, .inverse)
      | .ok d =>
          let rsi_cond : Bool :=
            if cluster_side = Side.sell then decide (cfg.rsi_overbought < d.rsi)
            else decide (d.rsi < cfg.rsi_oversold)
          let vwap_cond : Bool :=
            if cluster_side = Side.sell then
              decide (d.vwap * (1 + cfg.vwap_band_pct) < d.current_px)
            else decide (d.current_px < d.vwap * (1 - cfg.vwap_band_pct))
          let isMomentum : Bool :=
            if cfg.hybrid_require_both then rsi_cond && vwap_cond
            else rsi_cond || vwap_cond
          if isMomentum then (cluster_side, .momentum)
          else (cluster_side.inverse, .inverse)

/-- Follow condition of spec §4.2, stated from the spec's words: for a sell
cluster, oscillator above its overbought threshold and current price above
the reference price by more than the band; for a buy cluster the mirrored
conditions; `hybrid_require_both` selects AND versus OR. Written separately
from `decide_direction` so the code's branching can be compared against it. -/
def hybridFollowSpec (cluster_side : Side) (cfg : HybridConfig) (d : IndicatorData) : Bool :=
  let rsi_cond : Bool :=
    if cluster_side = Side.sell then decide (cfg.rsi_overbought < d.rsi)
    else decide (d.rsi < cfg.rsi_oversold)
  let vwap_cond : Bool :=
    if cluster_side = Side.sell then
      decide (d.vwap * (1 + cfg.vwap_band_pct) < d.current_px)
    else decide (d.current_px < d.vwap * (1 - cfg.vwap_band_pct))
  if cfg.hybrid_require_both then rsi_cond && vwap_cond else rsi_cond || vwap_cond

/-! Stop handling, from `src/mt5/execution.py` and the trailing-stop part of
`src/strategies/chandelier.py`. -/

/-- Broker symbol metadata used by the stop logic: the fields of
`conn.SYMBOL_INFO` the code reads (`digits`, `point`, `trade_stops_level`). -/
structure SymbolInfo where
  digits : ℕ
  point : ℚ
  trade_stops_level : ℕ
deriving DecidableEq, Repr

/-- Embedding of `round_price` from `src/mt5/execution.py`: Python
`round(x, digits)`, i.e. rounding to the nearest multiple of
`10 ^ (-digits)` (the half-to-even tie rule of Python differs from `round`
only on exact ties, which none of the results below touch). -/
def round_price (si : SymbolInfo) (x : ℚ) : ℚ :=
  (round (x * 10 ^ si.digits) : ℤ) / 10 ^ si.digits

/-- Embedding of `enforce_stop_level` from `src/mt5/execution.py`: widen the
SL/TP to the broker's minimum stop distance when they sit inside it, then
round both prices. `order_type` is `ORDER_TYPE_BUY` (`Side.buy`) or
`ORDER_TYPE_SELL` (`Side.sell`). -/
def enforce_stop_level (si : SymbolInfo) (order_type : Side) (price sl : ℚ)
    (tp : Option ℚ) : ℚ × Option ℚ :=
  let adjusted : ℚ × Option ℚ :=
    if 0 < si.trade_stops_level then
      let min_dist := (si.trade_stops_level : ℚ) * si.point
      if order_type = Side.buy then
        (if price - sl < min_dist then price - min_dist else sl,
         match tp with
         | some t => if t - price < min_dist then some (price + min_dist) else some t
         | none => none)
      else
        (if sl - price < min_dist then price + min_dist else sl,
         match tp with
         | some t => if price - t < min_dist then some (price - min_dist) else some t
         | none => none)
    else (sl, tp)
  (round_price si adjusted.1, adjusted.2.map (round_price si))

/-- Embedding of `BotPositionInfo` from `src/core/models.py` (the fields the
trailing logic reads and writes; `ticket` and `trade_mode` are carried by the
surrounding dictionaries and do not influence the stop computation). -/
structure BotPositionInfo where
  direction : Side
  entry_time : ℤ
  entry_price : ℚ
  sl_price : ℚ
  tp_price : Option ℚ
  initial_sl_price : ℚ
  breakeven_hit : Bool
deriving DecidableEq, Repr

/-- Subset of `StrategyConfig` consumed by the trailing-stop body. -/
structure TrailConfig where
  atr_trail_mult : ℚ
  trail_start_R : Option ℚ
  breakeven_trigger_R : Option ℚ
deriving DecidableEq, Repr

/-- Per-tick market data of `manage_trailing_stops`, computed once from the
fetched M1 candles and shared by all positions: `compute_atr`,
`df["high"].iloc[-lookback:].max()`, `df["low"].iloc[-lookback:].min()`,
`df["time"].iloc[-1]` and `float(df["close"].iloc[-1])`. -/
structure TrailTick where
  atr_val : ℚ
  highest_high : ℚ
  lowest_low : ℚ
  last_bar_ts : ℤ
  current_px : ℚ
deriving DecidableEq, Repr

/-- Step 3 of the per-position body of `manage_trailing_stops`: move the
stop to the rounded entry price once `open_R` reaches the breakeven
trigger, but only when that improves the stop in the favourable direction;
latch `breakeven_hit`. -/
def breakeven_step (cfg : TrailConfig) (si : SymbolInfo) (open_R : ℚ)
    (info : BotPositionInfo) : BotPositionInfo :=
  match cfg.breakeven_trigger_R with
  | some trigR =>
      if info.breakeven_hit = false ∧ trigR ≤ open_R then
        let be_sl := round_price si info.entry_price
        if (info.direction = Side.buy ∧ info.sl_price < be_sl)
            ∨ (info.direction = Side.sell ∧ be_sl < info.sl_price) then
          { info with sl_price := be_sl, breakeven_hit := true }
        else info
      else info
  | none => info

/-- Steps 5–7 of the per-position body of `manage_trailing_stops`: the
chandelier candidate with the max/min ratchet (`# never move SL backwards`),
`enforce_stop_level`, the correct-side and 3-point minimum-distance safety
guards, and the 2-point modify threshold. The source mutates `info.sl_price`
whenever it sends the modify request; the returned record is that updated
`info`. -/
def chandelier_step (cfg : TrailConfig) (si : SymbolInfo) (tk : TrailTick)
    (info1 : BotPositionInfo) : BotPositionInfo :=
  let new_sl0 :=
    if info1.direction = Side.buy then
      max info1.sl_price (tk.highest_high - cfg.atr_trail_mult * tk.atr_val)
    else
      min info1.sl_price (tk.lowest_low + cfg.atr_trail_mult * tk.atr_val)
  let new_sl :=
    (enforce_stop_level si info1.direction tk.current_px new_sl0 info1.tp_price).1
  if info1.direction = Side.buy then
    if tk.current_px ≤ new_sl then info1
    else if tk.current_px - new_sl < 3 * si.point then info1
    else if 2 * si.point < |new_sl - info1.sl_price| then
      { info1 with sl_price := new_sl }
    else info1
  else
    if new_sl ≤ tk.current_px then info1
    else if new_sl - tk.current_px < 3 * si.point then info1
    else if 2 * si.point < |new_sl - info1.sl_price| then
      { info1 with sl_price := new_sl }
    else info1

/-- Embedding of the per-position body of `manage_trailing_stops` from
`src/strategies/chandelier.py` (steps 1–7 of its docstring): entry-bar skip,
`sl_dist`/`open_R` computation, `breakeven_step`, the `trail_start_R` gate,
then `chandelier_step`. The surrounding MT5 queries (`positions_get`) are
abstracted away. -/
def trail_update (cfg : TrailConfig) (si : SymbolInfo) (tk : TrailTick)
    (info : BotPositionInfo) : BotPositionInfo :=
  if tk.last_bar_ts ≤ info.entry_time then info
  else
    let sl_dist := |info.entry_price - info.initial_sl_price|
    if sl_dist ≤ 0 then info
    else
      let open_R :=
        if info.direction = Side.buy then (tk.current_px - info.entry_price) / sl_dist
        else (info.entry_price - tk.current_px) / sl_dist
      let info1 := breakeven_step cfg si open_R info
      let trail_blocked : Bool :=
        match cfg.trail_start_R with
        | some r => decide (open_R < r)
        | none => false
      if trail_blocked then info1
      else chandelier_step cfg si tk info1

/-- Sequence of trailing updates: one `trail_update` per tick, each tick
bringing fresh market data, applied to the same position record by
successive `manage_trailing_stops` calls. -/
def trail_many (cfg : TrailConfig) (si : SymbolInfo) (ticks : List TrailTick)
    (info : BotPositionInfo) : BotPositionInfo :=
  ticks.foldl (fun i tkk => trail_update cfg si tkk i) info

/-! Entry gating, from `entry_step` in `src/strategies/chandelier.py`. -/

/-- Subset of `StrategyState` (`src/core/models.py`) consumed by
`entry_step`: the gate counters (`len(open_positions)`,
`len(pending_orders)`), the cooldown deadline, the capacity limit from the
config, and the per-engine cluster engine. On a successful placement the
source records the new ticket in `pending_orders`, which the embedding
tracks through `pending_count`. -/
structure StrategyState where
  max_open_positions : ℕ
  open_count : ℕ
  pending_count : ℕ
  cooldown_until : Option ℤ
  cluster_engine : ClusterEngine
deriving DecidableEq, Repr

/-- Embedding of `_in_cooldown` from `src/strategies/chandelier.py` (the
boolean that `_log_cooldown` computes and returns; its logging is dropped). -/
def in_cooldown (st : StrategyState) (now : ℤ) : Bool :=
  match st.cooldown_until with
  | some t => decide (now < t)
  | none => false

/-- Embedding of `entry_step` from `src/strategies/chandelier.py`. Gates 1–4
(capacity, single pending, cooldown, session) return before the cluster
engine is touched; gate 5 feeds the batch to `ClusterEngine.add_events`;
gates 6–7 (direction decision and `place_pending_entry`) are abstracted into
`place_result`, the optional ticket returned by the venue, since neither
touches the cluster window. `in_session` is the result of
`within_session()`. -/
def entry_step (st : StrategyState) (new_events : List SirixPositionEvent)
    (now : ℤ) (in_session : Bool) (place_result : Option ℤ) : StrategyState :=
  if st.max_open_positions ≤ st.open_count + st.pending_count then st
  else if 0 < st.pending_count then st
  else if in_cooldown st now then st
  else if in_session = false then st
  else
    let r := st.cluster_engine.add_events new_events
    let st1 := { st with cluster_engine := r.1 }
    match r.2 with
    | none => st1
    | some _cs =>
        match place_result with
        | none => st1
        | some _ticket =>
            { st1 with
                pending_count := st1.pending_count + 1,
                cooldown_until := some (now + TRADE_COOLDOWN_SECONDS) }

/-! De-duplication cache, from `src/sirix/api.py`. -/

/-- Embedding of `SeenOrdersCache` from `src/sirix/api.py`: `_store` is the
dict `order_id → first_seen_utc`, `max_age` the `timedelta` built from
`SEEN_ORDERS_MAX_AGE_HOURS` (in seconds). The wall-clock reads
(`datetime.now`) become explicit `now` arguments. -/
structure SeenOrdersCache where
  max_age : ℤ
  store : String → Option ℤ

/-- Embedding of `SeenOrdersCache._prune`: drop every entry whose timestamp
is older than `now - max_age`. -/
def SeenOrdersCache.prune (c : SeenOrdersCache) (now : ℤ) : SeenOrdersCache :=
  { c with
      store := fun k =>
        match c.store k with
        | some v => if v < now - c.max_age then none else some v
        | none => none }

/-- Embedding of `SeenOrdersCache.contains`: prune, then look the id up.
Returns the answer together with the pruned cache (the Python method
mutates `_store` in place). -/
def SeenOrdersCache.containsAt (c : SeenOrdersCache) (now : ℤ) (order_id : String) :
    Bool × SeenOrdersCache :=
  let c1 := c.prune now
  ((c1.store order_id).isSome, c1)

/-- Embedding of `SeenOrdersCache.add`: prune, then insert the id with the
current time only when it is not already present. -/
def SeenOrdersCache.addOrder (c : SeenOrdersCache) (now : ℤ) (order_id : String) :
    SeenOrdersCache :=
  let c1 := c.prune now
  if (c1.store order_id).isSome then c1
  else { c1 with store := fun k => if k = order_id then some now else c1.store k }

/-- Price on the broker's price grid: an integer multiple of
`10 ^ (-digits)`. Every stop price the bot stores has been produced by
`round_price` (initial stops via `calc_sl_tp`/`enforce_stop_level`,
breakeven stops via `round(entry, digits)`, trailed stops via
`enforce_stop_level`), so stored stops satisfy this. -/
def GridAligned (si : SymbolInfo) (x : ℚ) : Prop :=
  ∃ m : ℤ, x = (m : ℚ) / 10 ^ si.digits

/-- Favorable order on stop prices: for a long the stop may only rise, for a
short it may only fall. -/
def slFavLE (dir : Side) (a b : ℚ) : Prop :=
  match dir with
  | .buy => a ≤ b
  | .sell => b ≤ a

/-! Helper lemmas. -/

theorem dropWhile_idem (p : α → Bool) (l : List α) :
    (l.dropWhile p).dropWhile p = l.dropWhile p := by
  induction l with
  | nil => rfl
  | cons a t ih =>
      by_cases h : p a
      · simp [List.dropWhile_cons, h, ih]
      · simp [List.dropWhile_cons, h]

theorem getLast?_dropWhile (p : α → Bool) (l : List α)
    (h : l.dropWhile p ≠ []) : (l.dropWhile p).getLast? = l.getLast? := by
  obtain ⟨t, ht⟩ := List.dropWhile_suffix (l := l) p
  conv_rhs => rw [← ht]
  rw [List.getLast?_append_of_ne_nil t h]

theorem sorted_dropWhile_bound (c : ℤ) (l : List ClusterBot.SirixPositionEvent)
    (hs : l.Pairwise (fun a b => a.time ≤ b.time)) :
    ∀ x ∈ l.dropWhile (fun e => decide (e.time < c)), c ≤ x.time := by
  induction l with
  | nil => intro x hx; simp at hx
  | cons a t ih =>
      rw [List.pairwise_cons] at hs
      intro x hx
      by_cases h : a.time < c
      · rw [List.dropWhile_cons, if_pos (by simpa using h)] at hx
        exact ih hs.2 x hx
      · rw [List.dropWhile_cons, if_neg (by simpa using h)] at hx
        rcases List.mem_cons.mp hx with rfl | hx
        · omega
        · have := hs.1 x hx
          omega

theorem round_mono {x y : ℚ} (h : x ≤ y) : round x ≤ round y := by
  rw [round_eq, round_eq]
  exact Int.floor_le_floor (by linarith)

theorem round_price_grid (si : ClusterBot.SymbolInfo) (x : ℚ) :
    ClusterBot.GridAligned si (ClusterBot.round_price si x) :=
  ⟨round (x * 10 ^ si.digits), rfl⟩

theorem le_round_price_of_grid {si : ClusterBot.SymbolInfo} {g x : ℚ}
    (hg : ClusterBot.GridAligned si g) (h : g ≤ x) :
    g ≤ ClusterBot.round_price si x := by
  obtain ⟨m, rfl⟩ := hg
  have hp : (0 : ℚ) < 10 ^ si.digits := by positivity
  have h1 : (m : ℚ) ≤ x * 10 ^ si.digits := by
    rw [div_le_iff₀ hp] at h
    exact h
  have h2 : round ((m : ℚ)) ≤ round (x * 10 ^ si.digits) := round_mono h1
  rw [round_intCast] at h2
  rw [ClusterBot.round_price]
  gcongr

theorem round_price_le_of_grid {si : ClusterBot.SymbolInfo} {g x : ℚ}
    (hg : ClusterBot.GridAligned si g) (h : x ≤ g) :
    ClusterBot.round_price si x ≤ g := by
  obtain ⟨m, rfl⟩ := hg
  have hp : (0 : ℚ) < 10 ^ si.digits := by positivity
  have h1 : x * 10 ^ si.digits ≤ (m : ℚ) := by
    rw [le_div_iff₀ hp] at h
    exact h
  have h2 : round (x * 10 ^ si.digits) ≤ round ((m : ℚ)) := round_mono h1
  rw [round_intCast] at h2
  rw [ClusterBot.round_price]
  gcongr

/-- C4: in each evaluation of `ClusterEngine.add_events` over a non-empty
trimmed window, a cluster side is selected exactly when some side's
unique-participant count (the cardinality of distinct user_ids on that side
within the window) reaches `k_unique`, and when both sides reach `k_unique`
in the same evaluation the selected side is buy. `clusterSideOf` is the
side-selection step (step 4) of `add_events`. -/
theorem c4_cluster_side_selection (evs : List SirixPositionEvent) (k : ℕ)
    (hne : evs ≠ []) :
    ((clusterSideOf evs k).isSome ↔ k ≤ buy_unique evs ∨ k ≤ sell_unique evs) ∧
    (k ≤ buy_unique evs → clusterSideOf evs k = some Side.buy) ∧
    (clusterSideOf evs k = some Side.sell → k ≤ sell_unique evs ∧ buy_unique evs < k) ∧
    buy_unique evs =
      ((evs.filter (fun e => e.side == Side.buy)).map (fun e => e.user_id)).toFinset.card ∧
    sell_unique evs =
      ((evs.filter (fun e => !(e.side == Side.buy))).map (fun e => e.user_id)).toFinset.card := by
  refine ⟨?_, ?_, ?_, ?_, ?_⟩
  · unfold clusterSideOf
    split_ifs with h1 h2
    · simp [h1]
    · simp [h1, h2]
    · simp [h1, h2]
  · intro h1
    unfold clusterSideOf
    rw [if_pos h1]
  · intro h
    unfold clusterSideOf at h
    split_ifs at h with h1 h2
    · exact absurd (Option.some.injEq .. ▸ h) (by simp)
    · exact ⟨h2, by omega⟩
  · rw [List.card_toFinset]
    rfl
  · rw [List.card_toFinset]
    rfl

/-- Witness for C4 at a concrete one-event window with `k_unique = 1`. -/
theorem c4_cluster_side_selection_witness :
    clusterSideOf [⟨"o1", "u1", Side.buy, 1, 0⟩] 1 = some Side.buy :=
  (c4_cluster_side_selection [⟨"o1", "u1", Side.buy, 1, 0⟩] 1 (by decide)).2.1 (by decide)

/-- C6: in hybrid mode, for every cluster side and successfully computed
indicator triple, `decide_direction` follows the cluster exactly when the
spec's follow condition (`hybridFollowSpec`) holds — RSI beyond the
overbought/oversold threshold and price beyond the VWAP band, combined with
AND or OR according to `hybrid_require_both` — and otherwise fades to the
opposite side. -/
theorem c6_hybrid_decision (cluster_side : Side) (cfg : HybridConfig) (d : IndicatorData)
    (h : cfg.direction_mode = DirectionMode.hybrid) :
    decide_direction cluster_side cfg (Except.ok d) =
      (if hybridFollowSpec cluster_side cfg d then (cluster_side, TradeMode.momentum)
       else (cluster_side.inverse, TradeMode.inverse)) := by
  cases cluster_side <;> simp [decide_direction, hybridFollowSpec, h]

/-- Witness for C6: an overbought sell cluster well above the VWAP band is
followed. -/
theorem c6_hybrid_decision_witness :
    decide_direction Side.sell ⟨DirectionMode.hybrid, 65, 35, 1/1000, true⟩
        (Except.ok ⟨70, 100, 101⟩) = (Side.sell, TradeMode.momentum) := by
  have h := c6_hybrid_decision Side.sell ⟨DirectionMode.hybrid, 65, 35, 1/1000, true⟩
    ⟨70, 100, 101⟩ rfl
  rw [h]
  norm_num [hybridFollowSpec]

/-- C7: in hybrid mode, when the indicator computation fails (the `try`
block raises), `decide_direction` returns the fade result — the opposite of
the cluster side with mode inverse. The embedded function is total, which is
the shallow form of "never propagates an indicator exception to its caller":
the source catches every exception in that block and only logs it. -/
theorem c7_hybrid_failure_fades (cluster_side : Side) (cfg : HybridConfig) (e : Unit)
    (h : cfg.direction_mode = DirectionMode.hybrid) :
    decide_direction cluster_side cfg (Except.error e) =
      (cluster_side.inverse, TradeMode.inverse) := by
  simp [decide_direction, h]

/-- Witness for C7 at a concrete failing fetch on a buy cluster. -/
theorem c7_hybrid_failure_fades_witness :
    decide_direction Side.buy ⟨DirectionMode.hybrid, 65, 35, 1/1000, true⟩
        (Except.error ()) = (Side.sell, TradeMode.inverse) :=
  c7_hybrid_failure_fades Side.buy ⟨DirectionMode.hybrid, 65, 35, 1/1000, true⟩ () rfl

theorem check_daily_loss_aux_breach_iff (per_limit total_limit : ℚ)
    (l : List (String × ℚ)) :
    ∀ t : ℚ,
      (check_daily_loss_aux per_limit total_limit t l).1 = true ↔
        (∃ p ∈ l, p.2 ≤ -per_limit) ∨ t + (l.map Prod.snd).sum ≤ -total_limit := by
  induction l with
  | nil =>
      intro t
      simp only [check_daily_loss_aux, List.map_nil, List.sum_nil, add_zero]
      split_ifs with ht <;> simp [ht]
  | cons a rest ih =>
      intro t
      obtain ⟨name, pnl⟩ := a
      by_cases h : pnl ≤ -per_limit
      · simp only [check_daily_loss_aux, if_pos h]
        constructor
        · intro _
          exact Or.inl ⟨(name, pnl), List.mem_cons_self _ _, h⟩
        · intro _
          trivial
      · simp only [check_daily_loss_aux, if_neg h]
        rw [ih (t + pnl)]
        constructor
        · rintro (⟨p, hp, hple⟩ | hsum)
          · exact Or.inl ⟨p, List.mem_cons_of_mem _ hp, hple⟩
          · right
            rw [List.map_cons, List.sum_cons]
            linarith
        · rintro (⟨p, hp, hple⟩ | hsum)
          · rcases List.mem_cons.mp hp with rfl | hp2
            · exact absurd hple h
            · exact Or.inl ⟨p, hp2, hple⟩
          · right
            rw [List.map_cons, List.sum_cons] at hsum
            linarith

theorem check_daily_loss_aux_engine_reason (per_limit total_limit : ℚ)
    (l : List (String × ℚ)) :
    ∀ (t : ℚ) (name : String) (pnl : ℚ),
      (check_daily_loss_aux per_limit total_limit t l).2 =
        RiskReason.engineLimit name pnl →
      (name, pnl) ∈ l ∧ pnl ≤ -per_limit := by
  induction l with
  | nil =>
      intro t name pnl h
      by_cases ht : t ≤ -total_limit <;> simp [check_daily_loss_aux, ht] at h
  | cons a rest ih =>
      intro t name pnl h
      obtain ⟨n0, p0⟩ := a
      by_cases hb : p0 ≤ -per_limit
      · simp only [check_daily_loss_aux, if_pos hb, RiskReason.engineLimit.injEq] at h
        obtain ⟨rfl, rfl⟩ := h
        exact ⟨List.mem_cons_self _ _, hb⟩
      · simp only [check_daily_loss_aux, if_neg hb] at h
        obtain ⟨hm, hle⟩ := ih (t + p0) name pnl h
        exact ⟨List.mem_cons_of_mem _ hm, hle⟩

/-- C2: with daily loss limits enabled, `check_daily_loss_limits` signals a
breach exactly when some engine's realized-plus-floating P&L is at most the
negated per-engine limit or the summed total is at most the negated total
limit; a per-engine breach reason carries a breaching engine's name and
P&L. -/
theorem c2_daily_loss_limits (per_limit total_limit : ℚ)
    (engines : List (String × ℚ)) :
    ((check_daily_loss_limits true per_limit total_limit engines).1 = true ↔
       (∃ p ∈ engines, p.2 ≤ -per_limit) ∨
         (engines.map Prod.snd).sum ≤ -total_limit) ∧
    (∀ (name : String) (pnl : ℚ),
        (check_daily_loss_limits true per_limit total_limit engines).2 =
          RiskReason.engineLimit name pnl →
        (name, pnl) ∈ engines ∧ pnl ≤ -per_limit) := by
  constructor
  · have h := check_daily_loss_aux_breach_iff per_limit total_limit engines 0
    rw [zero_add] at h
    simpa [check_daily_loss_limits] using h
  · intro name pnl h
    exact check_daily_loss_aux_engine_reason per_limit total_limit engines 0 name pnl
      (by simpa [check_daily_loss_limits] using h)

/-- Witness for C2 at the configured limits (500 per engine, 1000 total)
with one engine 600 down. -/
theorem c2_daily_loss_limits_witness :
    ("E1", (-600 : ℚ)) ∈ [("E1", (-600 : ℚ))] ∧ (-600 : ℚ) ≤ -(500 : ℚ) :=
  (c2_daily_loss_limits 500 1000 [("E1", -600)]).2 "E1" (-600) (by decide)

/-- C10: an order id inserted into `SeenOrdersCache` is reported as seen at
any query time strictly less than `max_age` after its first-seen timestamp;
once its age exceeds `max_age`, the next `contains` access prunes it and the
id can be re-admitted by `add` with a fresh timestamp; and re-adding an id
that is still present keeps the first-seen timestamp, so the expiry is not
extended. -/
theorem c10_seen_orders_cache (c : SeenOrdersCache) (order_id : String) (t0 t : ℤ)
    (h : c.store order_id = some t0) :
    (t - t0 < c.max_age → (c.containsAt t order_id).1 = true) ∧
    (c.max_age < t - t0 →
       (c.containsAt t order_id).1 = false ∧
       ((c.containsAt t order_id).2).store order_id = none ∧
       (((c.containsAt t order_id).2).addOrder t order_id).store order_id = some t) ∧
    (t - t0 ≤ c.max_age → (c.addOrder t order_id).store order_id = some t0) := by
  refine ⟨?_, ?_, ?_⟩
  · intro hlt
    simp [SeenOrdersCache.containsAt, SeenOrdersCache.prune, h,
      if_neg (show ¬ t0 < t - c.max_age by omega)]
  · intro hgt
    have hcond : t0 < t - c.max_age := by omega
    refine ⟨?_, ?_, ?_⟩
    · simp [SeenOrdersCache.containsAt, SeenOrdersCache.prune, h, hcond]
    · simp [SeenOrdersCache.containsAt, SeenOrdersCache.prune, h, hcond]
    · simp [SeenOrdersCache.containsAt, SeenOrdersCache.addOrder,
        SeenOrdersCache.prune, h, hcond]
  · intro hle
    have hcond : ¬ t0 < t - c.max_age := by omega
    simp [SeenOrdersCache.addOrder, SeenOrdersCache.prune, h, hcond]

/-- Witness for C10: re-adding id `"A"` (first seen at 0, age 5 of 10) keeps
the original timestamp. -/
theorem c10_seen_orders_cache_witness :
    ((SeenOrdersCache.mk 10 (fun k => if k = "A" then some 0 else none)).addOrder 5
        "A").store "A" = some 0 :=
  (c10_seen_orders_cache ⟨10, fun k => if k = "A" then some 0 else none⟩ "A" 0 5
    (by decide)).2.2 (by decide)

theorem trimWindow_idem (evs : List SirixPositionEvent) (c : ℤ) :
    trimWindow (trimWindow evs c) c = trimWindow evs c :=
  dropWhile_idem _ _

theorem getLast?_trimWindow (evs : List SirixPositionEvent) (c : ℤ)
    (h : trimWindow evs c ≠ []) : (trimWindow evs c).getLast? = evs.getLast? :=
  getLast?_dropWhile _ evs h

theorem add_events_nil_of_empty (eng : ClusterEngine) (h : eng.events = []) :
    eng.add_events [] = (eng, none) := by
  obtain ⟨w, k, evts, lt, ls⟩ := eng
  simp only at h
  subst h
  rfl

theorem add_events_nil_twice (eng : ClusterEngine) :
    ((eng.add_events []).1).add_events [] = ((eng.add_events []).1, none) := by
  by_cases h : eng.events = []
  · rw [add_events_nil_of_empty eng h]
    exact add_events_nil_of_empty eng h
  · obtain ⟨lastEv, hL⟩ : ∃ le, eng.events.getLast? = some le := by
      cases e : eng.events.getLast? with
      | none => exact absurd (List.getLast?_eq_none_iff.mp e) h
      | some le => exact ⟨le, rfl⟩
    set c := lastEv.time - eng.window_seconds with hc
    set tw := trimWindow eng.events c with htw
    have hfirst : eng.add_events [] =
        (if tw = [] then ({ eng with events := tw }, none)
         else
           match clusterSideOf tw eng.k_unique with
           | none => ({ eng with events := tw }, none)
           | some cs =>
               if refractorySuppressed eng lastEv.time cs then
                 ({ eng with events := tw }, none)
               else
                 ({ eng with
                     events := tw
                     last_cluster_time := some lastEv.time
                     last_cluster_side := some cs }, some cs)) := by
      simp only [ClusterEngine.add_events, List.append_nil, hL]
    by_cases h2 : tw = []
    · rw [hfirst, if_pos h2]
      exact add_events_nil_of_empty _ h2
    · rw [hfirst, if_neg h2]
      have hL2 : tw.getLast? = some lastEv := by
        rw [htw, getLast?_trimWindow eng.events c (htw ▸ h2), hL]
      have hidem : trimWindow tw c = tw := by
        rw [htw]
        exact trimWindow_idem _ _
      cases hcs : clusterSideOf tw eng.k_unique with
      | none =>
          simp only [hcs]
          show ClusterEngine.add_events _ [] = _
          simp only [ClusterEngine.add_events, List.append_nil, hL2, hidem,
            if_neg h2, hcs]
      | some cs =>
          simp only [hcs]
          by_cases h3 : refractorySuppressed eng lastEv.time cs = true
          · rw [if_pos h3]
            show ClusterEngine.add_events _ [] = _
            simp only [ClusterEngine.add_events, List.append_nil, hL2, hidem,
              if_neg h2, hcs, refractorySuppressed]
            simp only [refractorySuppressed] at h3
            rw [h3]
            rfl
          · rw [if_neg h3]
            show ClusterEngine.add_events _ [] = _
            simp only [ClusterEngine.add_events, List.append_nil, hL2, hidem,
              if_neg h2, hcs, refractorySuppressed, CLUSTER_REFRACTORY_SECONDS]
            have hsup : (cs == cs && decide (lastEv.time - lastEv.time < 1)) = true := by
              rw [sub_self]
              cases cs <;> rfl
            rw [if_pos hsup]

/-- C8: `add_events` with an empty batch on an empty window returns `None`
and leaves the engine untouched, and an empty-batch call is idempotent on
the engine state: a second empty-batch call from the state produced by any
first call returns `None` and leaves the state (window, refractory fields)
exactly as after the first call. -/
theorem c8_empty_batch_idempotent :
    (∀ eng : ClusterEngine, eng.events = [] → eng.add_events [] = (eng, none)) ∧
    (∀ eng : ClusterEngine,
        ((eng.add_events []).1).add_events [] = ((eng.add_events []).1, none)) :=
  ⟨fun eng h => add_events_nil_of_empty eng h, fun eng => add_events_nil_twice eng⟩

/-- Witness for C8 at a concrete empty engine (`T = 10`, `K = 3`). -/
theorem c8_empty_batch_idempotent_witness :
    (ClusterEngine.mk 10 3 [] none none).add_events [] =
      (ClusterEngine.mk 10 3 [] none none, none) :=
  c8_empty_batch_idempotent.1 (ClusterEngine.mk 10 3 [] none none) rfl

theorem refractorySuppressed_iff (eng : ClusterEngine) (lt : ℤ) (cs : Side) :
    refractorySuppressed eng lt cs = true ↔
      ∃ t, eng.last_cluster_time = some t ∧ eng.last_cluster_side = some cs ∧
        lt - t < CLUSTER_REFRACTORY_SECONDS := by
  unfold refractorySuppressed
  rcases eng.last_cluster_time with _ | t <;> rcases eng.last_cluster_side with _ | s <;>
    simp [Bool.and_eq_true, beq_iff_eq, decide_eq_true_eq]

theorem add_events_char (eng : ClusterEngine) (new : List SirixPositionEvent)
    (lastEv : SirixPositionEvent) (hL : (eng.events ++ new).getLast? = some lastEv) :
    eng.add_events new =
      (if trimWindow (eng.events ++ new) (lastEv.time - eng.window_seconds) = [] then
        ({ eng with
            events := trimWindow (eng.events ++ new)
              (lastEv.time - eng.window_seconds) }, none)
       else
         match clusterSideOf
             (trimWindow (eng.events ++ new) (lastEv.time - eng.window_seconds))
             eng.k_unique with
         | none =>
             ({ eng with
                 events := trimWindow (eng.events ++ new)
                   (lastEv.time - eng.window_seconds) }, none)
         | some cs =>
             if refractorySuppressed eng lastEv.time cs then
               ({ eng with
                   events := trimWindow (eng.events ++ new)
                     (lastEv.time - eng.window_seconds) }, none)
             else
               ({ eng with
                   events := trimWindow (eng.events ++ new)
                     (lastEv.time - eng.window_seconds)
                   last_cluster_time := some lastEv.time
                   last_cluster_side := some cs }, some cs)) := by
  simp only [ClusterEngine.add_events, hL]

theorem add_events_of_append_nil (eng : ClusterEngine) (new : List SirixPositionEvent)
    (h : eng.events ++ new = []) :
    eng.add_events new = ({ eng with events := [] }, none) := by
  simp only [ClusterEngine.add_events, h, List.getLast?_nil]

/-- C5: the refractory behaviour of `add_events`. (a) A signal of the same
side as the stored refractory side is only emitted when the latest event
time is at least `CLUSTER_REFRACTORY_SECONDS` past the stored refractory
time. (b) A qualifying cluster whose side differs from the stored side is
never suppressed: the signal is emitted. (c) Signal-free evaluations leave
the refractory state untouched. (d) An emitting evaluation records the
emitted side as the new refractory side. -/
theorem c5_refractory (eng : ClusterEngine) (new : List SirixPositionEvent) :
    (∀ s t, (eng.add_events new).2 = some s →
        eng.last_cluster_side = some s → eng.last_cluster_time = some t →
        ∃ lt, (eng.add_events new).1.last_cluster_time = some lt ∧
          CLUSTER_REFRACTORY_SECONDS ≤ lt - t) ∧
    (∀ s lastEv, (eng.events ++ new).getLast? = some lastEv →
        clusterSideOf (trimWindow (eng.events ++ new) (lastEv.time - eng.window_seconds))
            eng.k_unique = some s →
        trimWindow (eng.events ++ new) (lastEv.time - eng.window_seconds) ≠ [] →
        eng.last_cluster_side ≠ some s →
        (eng.add_events new).2 = some s) ∧
    ((eng.add_events new).2 = none →
        (eng.add_events new).1.last_cluster_time = eng.last_cluster_time ∧
        (eng.add_events new).1.last_cluster_side = eng.last_cluster_side) ∧
    (∀ s, (eng.add_events new).2 = some s →
        (eng.add_events new).1.last_cluster_side = some s ∧
        (eng.add_events new).1.last_cluster_time =
          some ((((eng.events ++ new).getLast?.map SirixPositionEvent.time)).getD 0)) := by
  by_cases hevs : eng.events ++ new = []
  · rw [add_events_of_append_nil eng new hevs]
    refine ⟨?_, ?_, ?_, ?_⟩
    · intro s t hsome
      simp at hsome
    · intro s lastEv hL
      rw [hevs, List.getLast?_nil] at hL
      exact absurd hL (by simp)
    · intro _
      exact ⟨by simp, by simp⟩
    · intro s hsome
      simp at hsome
  · obtain ⟨lastEv, hL⟩ : ∃ le, (eng.events ++ new).getLast? = some le := by
      cases e : (eng.events ++ new).getLast? with
      | none => exact absurd (List.getLast?_eq_none_iff.mp e) hevs
      | some le => exact ⟨le, rfl⟩
    rw [add_events_char eng new lastEv hL]
    set tw := trimWindow (eng.events ++ new) (lastEv.time - eng.window_seconds) with htw
    by_cases h2 : tw = []
    · rw [if_pos h2]
      refine ⟨?_, ?_, ?_, ?_⟩
      · intro s t hsome
        simp at hsome
      · intro s lastEv2 hL2 _ hne2 _
        rw [hL] at hL2
        obtain rfl : lastEv2 = lastEv := Option.some.inj hL2.symm
        exact absurd h2 hne2
      · intro _
        exact ⟨by simp, by simp⟩
      · intro s hsome
        simp at hsome
    · rw [if_neg h2]
      cases hcs : clusterSideOf tw eng.k_unique with
      | none =>
          simp only [hcs]
          refine ⟨?_, ?_, ?_, ?_⟩
          · intro s t hsome
            simp at hsome
          · intro s lastEv2 hL2 hcs2 _ _
            rw [hL] at hL2
            obtain rfl : lastEv2 = lastEv := Option.some.inj hL2.symm
            rw [← htw] at hcs2
            rw [hcs] at hcs2
            exact absurd hcs2 (by simp)
          · intro _
            exact ⟨by simp, by simp⟩
          · intro s hsome
            simp at hsome
      | some cs =>
          simp only [hcs]
          by_cases h3 : refractorySuppressed eng lastEv.time cs = true
          · rw [if_pos h3]
            obtain ⟨t0, ht0, hs0, _⟩ := (refractorySuppressed_iff eng lastEv.time cs).mp h3
            refine ⟨?_, ?_, ?_, ?_⟩
            · intro s t hsome
              simp at hsome
            · intro s lastEv2 hL2 hcs2 _ hdiff
              rw [hL] at hL2
              obtain rfl : lastEv2 = lastEv := Option.some.inj hL2.symm
              rw [← htw, hcs] at hcs2
              obtain rfl : cs = s := Option.some.inj hcs2
              exact absurd hs0 hdiff
            · intro _
              exact ⟨by simp, by simp⟩
            · intro s hsome
              simp at hsome
          · rw [if_neg h3]
            refine ⟨?_, ?_, ?_, ?_⟩
            · intro s t hsome hside htime
              obtain rfl : cs = s := Option.some.inj hsome
              refine ⟨lastEv.time, rfl, ?_⟩
              by_contra hlt
              exact h3 ((refractorySuppressed_iff eng lastEv.time cs).mpr
                ⟨t, htime, hside, by omega⟩)
            · intro s lastEv2 hL2 hcs2 _ _
              rw [hL] at hL2
              obtain rfl : lastEv2 = lastEv := Option.some.inj hL2.symm
              rw [← htw, hcs] at hcs2
              obtain rfl : cs = s := Option.some.inj hcs2
              rfl
            · intro hnone
              simp at hnone
            · intro s hsome
              obtain rfl : cs = s := Option.some.inj hsome
              exact ⟨rfl, by rw [hL]; rfl⟩

/-- Witness for C5: a buy cluster firing on a fresh engine (`T = 10`,
`K = 1`, empty refractory state) emits `buy`. -/
theorem c5_refractory_witness :
    ((ClusterEngine.mk 10 1 [] none none).add_events
        [⟨"o1", "u1", Side.buy, 1, 100⟩]).2 = some Side.buy :=
  (c5_refractory (ClusterEngine.mk 10 1 [] none none)
      [⟨"o1", "u1", Side.buy, 1, 100⟩]).2.1 Side.buy
    ⟨"o1", "u1", Side.buy, 1, 100⟩ (by decide) (by decide) (by decide) (by decide)

theorem add_events_events_eq (eng : ClusterEngine) (new : List SirixPositionEvent)
    (lastEv : SirixPositionEvent) (hL : (eng.events ++ new).getLast? = some lastEv) :
    (eng.add_events new).1.events =
      trimWindow (eng.events ++ new) (lastEv.time - eng.window_seconds) := by
  rw [add_events_char eng new lastEv hL]
  by_cases h2 : trimWindow (eng.events ++ new) (lastEv.time - eng.window_seconds) = []
  · rw [if_pos h2]
  · rw [if_neg h2]
    cases hcs : clusterSideOf (trimWindow (eng.events ++ new)
        (lastEv.time - eng.window_seconds)) eng.k_unique with
    | none => simp only [hcs]
    | some cs =>
        simp only [hcs]
        by_cases h3 : refractorySuppressed eng lastEv.time cs = true
        · rw [if_pos h3]
        · rw [if_neg h3]

/-- C3 (counterexample to the claim as stated): over the out-of-order batch
sequence `[t=100]`, `[t=5]`, `[t=105]` on a window of `T = 10` seconds, the
late event at `t=5` survives the trim of the third call even though the
latest open time is `105`: the newest event at the deque's right end shields
the stale one from the left-popping loop, so the final window violates
`open_time ≥ latest − T` (`5 < 105 − 10`). -/
theorem c3_window_trim_counterexample :
    (let eng3 := (((ClusterEngine.mk 10 99 [] none none).add_events
          [⟨"o1", "u1", Side.buy, (1 : ℚ), 100⟩]).1.add_events
          [⟨"o2", "u2", Side.buy, (1 : ℚ), 5⟩]).1.add_events
          [⟨"o3", "u3", Side.buy, (1 : ℚ), 105⟩]
     eng3.1.events.getLast? = some ⟨"o3", "u3", Side.buy, (1 : ℚ), 105⟩ ∧
       ⟨"o2", "u2", Side.buy, (1 : ℚ), 5⟩ ∈ eng3.1.events ∧
       ((5 : ℤ) < 105 - (10 : ℤ))) := by
  decide

/-- C3 (amended): when the concatenation of the stored window and the new
batch is non-decreasing in open time — the feed adapter's stated delivery
order — every event in the window after `add_events` has
`open_time ≥ latest.open_time − window_seconds`, where `latest` is the last
(newest) event of the trimmed window; no stale event survives. -/
theorem c3_window_trim_sorted (eng : ClusterEngine) (new : List SirixPositionEvent)
    (hs : (eng.events ++ new).Pairwise (fun a b => a.time ≤ b.time)) :
    ∀ lastEv ev, ((eng.add_events new).1.events).getLast? = some lastEv →
      ev ∈ (eng.add_events new).1.events →
      lastEv.time - eng.window_seconds ≤ ev.time := by
  intro lastEv ev hgl hmem
  by_cases hevs : eng.events ++ new = []
  · rw [add_events_of_append_nil eng new hevs] at hgl
    simp at hgl
  · obtain ⟨lastEv0, hL⟩ : ∃ le, (eng.events ++ new).getLast? = some le := by
      cases e : (eng.events ++ new).getLast? with
      | none => exact absurd (List.getLast?_eq_none_iff.mp e) hevs
      | some le => exact ⟨le, rfl⟩
    rw [add_events_events_eq eng new lastEv0 hL] at hgl hmem
    have htwne : trimWindow (eng.events ++ new) (lastEv0.time - eng.window_seconds) ≠ [] := by
      intro hnil
      rw [hnil] at hgl
      simp at hgl
    have hsame : lastEv = lastEv0 := by
      have h1 := getLast?_trimWindow (eng.events ++ new)
        (lastEv0.time - eng.window_seconds) htwne
      rw [hgl, hL] at h1
      exact Option.some.inj h1
    subst hsame
    exact sorted_dropWhile_bound (lastEv.time - eng.window_seconds)
      (eng.events ++ new) hs ev hmem

/-- Witness for C3 (amended) on a concrete in-order run: with `T = 10` and
batches `[t=100]`, `[t=103]`, the window keeps both events and the bound
holds for the older one. -/
theorem c3_window_trim_sorted_witness :
    ((⟨"o3", "u3", Side.buy, (1 : ℚ), 103⟩ : SirixPositionEvent).time - 10 ≤
      (⟨"o1", "u1", Side.buy, (1 : ℚ), 100⟩ : SirixPositionEvent).time) :=
  c3_window_trim_sorted
    ((ClusterEngine.mk 10 99 [] none none).add_events
      [⟨"o1", "u1", Side.buy, (1 : ℚ), 100⟩]).1
    [⟨"o3", "u3", Side.buy, (1 : ℚ), 103⟩]
    (by decide)
    ⟨"o3", "u3", Side.buy, (1 : ℚ), 103⟩
    ⟨"o1", "u1", Side.buy, (1 : ℚ), 100⟩
    (by decide) (by decide)

/-- C9 (counterexample to the claim as stated): an engine holding one
pending order (gate 2) returns from `entry_step` before the cluster engine
is touched, so the delivered batch is never ingested into that engine's
window — the event is dropped, not consumed exactly once, because gates 1–4
precede ingestion. -/
theorem c9_ingest_counterexample :
    (let st : StrategyState := ⟨5, 0, 1, none, ClusterEngine.mk 10 1 [] none none⟩
     let result := entry_step st [⟨"o1", "u1", Side.buy, (1 : ℚ), 100⟩] 0 true (some 7)
     result = st ∧
       ⟨"o1", "u1", Side.buy, (1 : ℚ), 100⟩ ∉ result.cluster_engine.events) := by
  decide

/-- C9 (amended): per tick, an engine ingests the delivered batch into its
window via `add_events` exactly once when its capacity, single-pending,
cooldown and session gates all pass; when any of those gates triggers, the
whole state — the cluster window included — is left untouched and the batch
is never ingested by that engine. -/
theorem c9_entry_gating (st : StrategyState) (new : List SirixPositionEvent)
    (now : ℤ) (in_session : Bool) (place_result : Option ℤ) :
    ((st.max_open_positions ≤ st.open_count + st.pending_count ∨
        0 < st.pending_count ∨ in_cooldown st now = true ∨ in_session = false) →
      entry_step st new now in_session place_result = st) ∧
    ((st.open_count + st.pending_count < st.max_open_positions ∧
        st.pending_count = 0 ∧ in_cooldown st now = false ∧ in_session = true) →
      (entry_step st new now in_session place_result).cluster_engine =
        (st.cluster_engine.add_events new).1) := by
  constructor
  · intro hgate
    simp only [entry_step]
    split_ifs with g1 g2 g3 g4
    · rfl
    · rfl
    · rfl
    · rfl
    · exfalso
      rcases hgate with hh | hh | hh | hh
      · exact g1 hh
      · exact g2 hh
      · exact g3 hh
      · exact g4 hh
  · rintro ⟨hg1, hg2, hg3, hg4⟩
    simp only [entry_step]
    rw [if_neg (by omega), if_neg (by omega), if_neg (by simp [hg3]),
      if_neg (by simp [hg4])]
    cases hr2 : (st.cluster_engine.add_events new).2 with
    | none => simp only [hr2]
    | some cs =>
        simp only [hr2]
        cases place_result with
        | none => rfl
        | some t => rfl

/-- Witness for C9 (amended): with all four gates passing, the batch is
ingested into the engine window. -/
theorem c9_entry_gating_witness :
    (entry_step ⟨5, 0, 0, none, ClusterEngine.mk 10 1 [] none none⟩
        [⟨"o1", "u1", Side.buy, (1 : ℚ), 100⟩] 0 true none).cluster_engine =
      ((ClusterEngine.mk 10 1 [] none none).add_events
        [⟨"o1", "u1", Side.buy, (1 : ℚ), 100⟩]).1 :=
  (c9_entry_gating ⟨5, 0, 0, none, ClusterEngine.mk 10 1 [] none none⟩
      [⟨"o1", "u1", Side.buy, (1 : ℚ), 100⟩] 0 true none).2
    ⟨by decide, by decide, by decide, by decide⟩

theorem slFavLE_refl (dir : Side) (a : ℚ) : slFavLE dir a a := by
  cases dir <;> simp [slFavLE]

theorem slFavLE_trans {dir : Side} {a b c : ℚ}
    (h1 : slFavLE dir a b) (h2 : slFavLE dir b c) : slFavLE dir a c := by
  cases dir <;> simp only [slFavLE] at *
  · exact le_trans h1 h2
  · exact le_trans h2 h1

theorem enforce_fst_no_level (si : SymbolInfo) (ot : Side) (px sl : ℚ)
    (tp : Option ℚ) (h0 : si.trade_stops_level = 0) :
    (enforce_stop_level si ot px sl tp).1 = round_price si sl := by
  simp [enforce_stop_level, h0]

theorem breakeven_step_facts (cfg : TrailConfig) (si : SymbolInfo) (open_R : ℚ)
    (info : BotPositionInfo) (hg : GridAligned si info.sl_price) :
    slFavLE info.direction info.sl_price (breakeven_step cfg si open_R info).sl_price ∧
    GridAligned si (breakeven_step cfg si open_R info).sl_price ∧
    (breakeven_step cfg si open_R info).direction = info.direction := by
  unfold breakeven_step
  cases cfg.breakeven_trigger_R with
  | none => exact ⟨slFavLE_refl _ _, hg, rfl⟩
  | some trigR =>
      dsimp only
      split_ifs with h1 h2
      · refine ⟨?_, round_price_grid si _, rfl⟩
        rcases h2 with ⟨hd, hlt⟩ | ⟨hd, hlt⟩ <;>
          rw [hd] <;> simp only [slFavLE] <;> exact le_of_lt hlt
      · exact ⟨slFavLE_refl _ _, hg, rfl⟩
      · exact ⟨slFavLE_refl _ _, hg, rfl⟩

theorem chandelier_step_facts (cfg : TrailConfig) (si : SymbolInfo) (tk : TrailTick)
    (info1 : BotPositionInfo) (h0 : si.trade_stops_level = 0)
    (hg : GridAligned si info1.sl_price) :
    slFavLE info1.direction info1.sl_price (chandelier_step cfg si tk info1).sl_price ∧
    GridAligned si (chandelier_step cfg si tk info1).sl_price ∧
    (chandelier_step cfg si tk info1).direction = info1.direction := by
  obtain ⟨dir, et, ep, slp, tpp, isl, bh⟩ := info1
  cases dir with
  | buy =>
      have hmono : slp ≤
          round_price si (max slp (tk.highest_high - cfg.atr_trail_mult * tk.atr_val)) :=
        le_round_price_of_grid hg (le_max_left _ _)
      unfold chandelier_step
      dsimp only
      rw [if_pos rfl, if_pos rfl,
        enforce_fst_no_level si Side.buy tk.current_px _ _ h0]
      split_ifs with g1 g2 g3
      · exact ⟨slFavLE_refl _ _, hg, rfl⟩
      · exact ⟨slFavLE_refl _ _, hg, rfl⟩
      · exact ⟨hmono, round_price_grid si _, rfl⟩
      · exact ⟨slFavLE_refl _ _, hg, rfl⟩
  | sell =>
      have hne : ¬ (Side.sell = Side.buy) := by decide
      have hmono : round_price si
            (min slp (tk.lowest_low + cfg.atr_trail_mult * tk.atr_val)) ≤ slp :=
        round_price_le_of_grid hg (min_le_left _ _)
      unfold chandelier_step
      dsimp only
      rw [if_neg hne, if_neg hne,
        enforce_fst_no_level si Side.sell tk.current_px _ _ h0]
      split_ifs with g1 g2 g3
      · exact ⟨slFavLE_refl _ _, hg, rfl⟩
      · exact ⟨slFavLE_refl _ _, hg, rfl⟩
      · exact ⟨hmono, round_price_grid si _, rfl⟩
      · exact ⟨slFavLE_refl _ _, hg, rfl⟩

theorem trail_core_facts (cfg : TrailConfig) (si : SymbolInfo) (tk : TrailTick)
    (R0 : ℚ) (tb : Bool) (info : BotPositionInfo)
    (h0 : si.trade_stops_level = 0) (hg : GridAligned si info.sl_price) :
    slFavLE info.direction info.sl_price
      ((if tb then breakeven_step cfg si R0 info
        else chandelier_step cfg si tk (breakeven_step cfg si R0 info))).sl_price ∧
    GridAligned si
      ((if tb then breakeven_step cfg si R0 info
        else chandelier_step cfg si tk (breakeven_step cfg si R0 info))).sl_price ∧
    ((if tb then breakeven_step cfg si R0 info
        else chandelier_step cfg si tk (breakeven_step cfg si R0 info))).direction =
      info.direction := by
  obtain ⟨hbe1, hbe2, hbe3⟩ := breakeven_step_facts cfg si R0 info hg
  cases tb with
  | true => exact ⟨hbe1, hbe2, hbe3⟩
  | false =>
      obtain ⟨hc1, hc2, hc3⟩ :=
        chandelier_step_facts cfg si tk (breakeven_step cfg si R0 info) h0 hbe2
      rw [hbe3] at hc1 hc3
      exact ⟨slFavLE_trans hbe1 hc1, hc2, hc3⟩

theorem trail_update_facts (cfg : TrailConfig) (si : SymbolInfo) (tk : TrailTick)
    (info : BotPositionInfo) (h0 : si.trade_stops_level = 0)
    (hg : GridAligned si info.sl_price) :
    slFavLE info.direction info.sl_price (trail_update cfg si tk info).sl_price ∧
    GridAligned si (trail_update cfg si tk info).sl_price ∧
    (trail_update cfg si tk info).direction = info.direction := by
  simp only [trail_update]
  by_cases hb1 : tk.last_bar_ts ≤ info.entry_time
  · rw [if_pos hb1]
    exact ⟨slFavLE_refl _ _, hg, rfl⟩
  · rw [if_neg hb1]
    by_cases hb2 : |info.entry_price - info.initial_sl_price| ≤ 0
    · rw [if_pos hb2]
      exact ⟨slFavLE_refl _ _, hg, rfl⟩
    · rw [if_neg hb2]
      exact trail_core_facts cfg si tk _ _ info h0 hg

/-- C1 (counterexample to the claim as stated): a long position with stop
100, entry 100, price 100.5, broker `trade_stops_level = 100` points
(minimum distance 1.00) and a chandelier candidate of 99. The ratchet keeps
`max(100, 99) = 100`, but `enforce_stop_level` widens the stop to
`price − min_dist = 99.5`, the safety guards pass, the change exceeds the
2-point threshold, and the stored stop regresses from 100 to 99.5. -/
theorem c1_stop_ratchet_counterexample :
    (trail_update ⟨2, none, none⟩ ⟨2, 1/100, 100⟩ ⟨1, 101, 0, 10, 100.5⟩
        ⟨Side.buy, 0, 100, 100, none, 98, true⟩).sl_price <
      (⟨Side.buy, 0, 100, 100, none, 98, true⟩ : BotPositionInfo).sl_price := by
  unfold trail_update breakeven_step chandelier_step enforce_stop_level round_price
  norm_num [round_eq, max_def, abs_of_pos]

/-- C1 (amended): across any sequence of trailing updates, the stored stop
never regresses against the favorable direction — it never decreases for a
long position and never increases for a short one, even when a later
chandelier candidate is less favorable — provided the broker
minimum-stop-distance widening in `enforce_stop_level` does not intervene
(`trade_stops_level = 0`) and the stored stop lies on the broker price grid
(which every stop the bot writes does, being a `round_price` result). The
unamended claim fails when the minimum-distance widening binds. -/
theorem c1_stop_ratchet_amended (cfg : TrailConfig) (si : SymbolInfo)
    (ticks : List TrailTick) (info : BotPositionInfo)
    (h0 : si.trade_stops_level = 0) (hg : GridAligned si info.sl_price) :
    slFavLE info.direction info.sl_price (trail_many cfg si ticks info).sl_price := by
  induction ticks generalizing info with
  | nil =>
      simpa [trail_many] using slFavLE_refl info.direction info.sl_price
  | cons tk ticks ih =>
      obtain ⟨h1, h2, h3⟩ := trail_update_facts cfg si tk info h0 hg
      have hrest := ih (trail_update cfg si tk info) h2
      rw [h3] at hrest
      have : trail_many cfg si (tk :: ticks) info =
          trail_many cfg si ticks (trail_update cfg si tk info) := rfl
      rw [this]
      exact slFavLE_trans h1 hrest

/-- Witness for C1 (amended) at a concrete long position and one tick with
no broker stop level. -/
theorem c1_stop_ratchet_amended_witness :
    slFavLE (⟨Side.buy, 0, 100, 100, none, 98, true⟩ : BotPositionInfo).direction
      (⟨Side.buy, 0, 100, 100, none, 98, true⟩ : BotPositionInfo).sl_price
      (trail_many ⟨2, none, none⟩ ⟨2, 1/100, 0⟩ [⟨1, 103, 0, 10, 105⟩]
        ⟨Side.buy, 0, 100, 100, none, 98, true⟩).sl_price :=
  c1_stop_ratchet_amended ⟨2, none, none⟩ ⟨2, 1/100, 0⟩ [⟨1, 103, 0, 10, 105⟩]
    ⟨Side.buy, 0, 100, 100, none, 98, true⟩ rfl ⟨10000, by norm_num⟩

end ClusterBot
